import Mathlib

/-!
Verification of the mywebnote persistence fragment.

This file gives a shallow embedding of the two source files in scope:

* `src/renderer/src/store/localstorage.ts` — the `LocalStorageService`
  settings wrapper over the browser `localStorage` map;
* the `Handraw` React component — the editor binding that hydrates the
  canvas from `canvasIndexeddbStorage` and persists edits through a
  200ms trailing-edge debounce (`useDebounceFn` from ahooks).

The browser `localStorage` object is modelled as a total map from keys to
optionally-present string values.  JS builtins used by the source
(`String.prototype.split(",")`, `Array.prototype.join(",")`,
`JSON.stringify`, promise construction, the `||` operator on nullable
strings) are modelled by explicit Lean functions defined below.
-/

/-- The browser localStorage map: each key holds an optional string value
(`none` models an absent key, for which `getItem` returns JS `null`). -/
def Store : Type := String → Option String

/-- A store with no keys set. -/
def emptyStore : Store := fun _ => none

/-- `localStorage.getItem(key)`: the stored value, or `none` (JS `null`)
when the key is absent. -/
def getItem (st : Store) (key : String) : Option String := st key

/-- `localStorage.setItem(key, value)`: unconditionally overwrite the value
held at `key`, leaving every other key unchanged. -/
def setItem (st : Store) (key value : String) : Store :=
  fun k => if k = key then some value else getItem st k

/-- JS `a || b` for a nullable string `a`: `b` when `a` is `null`/`undefined`
or the empty string (the falsy strings), otherwise `a` itself. -/
def jsOr (a : Option String) (b : String) : String :=
  match a with
  | none => b
  | some s => if s = "" then b else s

/-- JS `String.prototype.split(",")` on the underlying character list:
splits at every comma; the empty list yields one empty piece, as in JS
where the empty string splits to `[""]`. -/
def splitCommaChars : List Char → List (List Char)
  | [] => [[]]
  | c :: cs =>
    if c = ',' then [] :: splitCommaChars cs
    else
      match splitCommaChars cs with
      | [] => [[c]]
      | p :: ps => (c :: p) :: ps

/-- JS `Array.prototype.join(",")` on character lists: interleave a comma
between consecutive pieces. -/
def joinCommaChars : List (List Char) → List Char
  | [] => []
  | [p] => p
  | p :: q :: ps => p ++ ',' :: joinCommaChars (q :: ps)

/-- String-level wrapper for `String.prototype.split(",")`. -/
def splitComma (s : String) : List String :=
  (splitCommaChars s.data).map (fun cs => String.mk cs)

/-- String-level wrapper for `Array.prototype.join(",")`. -/
def joinComma (xs : List String) : String :=
  String.mk (joinCommaChars (xs.map String.data))

/-! ### Keys of `LocalStorageService` (localstorage.ts) -/

def LOCALSTORAGE_MENU_OPEN_KEYS : String := "menu_open_keys"

def LOCALSTORAGE_CURRENT_FILE_ID : String := "current_file_id"

def LOCALSTORAGE_BOARD_CUSTOM_FONTS : String := "custom_fonts"

def LOCALSTORAGE_LANG_CODE : String := "lang_code"

def LOCALSTORAGE_BOARD_CUSTOM_FONT_SWITCH : String := "board_custom_font_switch"

/-! ### JSON serialization (models the JS builtin `JSON.stringify`)

`JSON.stringify` is applied by the source to the opaque drawing model and
to string arrays.  We model JSON values by a small inductive type and the
builtin by structural recursion.  String escaping is not modelled (the
payloads considered contain no quote or backslash characters). -/

inductive Json : Type where
  | null : Json
  | bool : Bool → Json
  | num : Int → Json
  | str : String → Json
  | arr : List Json → Json
  | obj : List (String × Json) → Json

mutual

/-- Models `JSON.stringify` on `Json` values. -/
def Json.stringify : Json → String
  | .null => "null"
  | .bool true => "true"
  | .bool false => "false"
  | .num n => toString n
  | .str s => "\x22" ++ s ++ "\x22"
  | .arr xs => "[" ++ Json.stringifyElems xs ++ "]"
  | .obj ms => "\x7b" ++ Json.stringifyMembers ms ++ "\x7d"

/-- Comma-separated serialization of array elements. -/
def Json.stringifyElems : List Json → String
  | [] => ""
  | [j] => Json.stringify j
  | j :: j2 :: js => Json.stringify j ++ "," ++ Json.stringifyElems (j2 :: js)

/-- Comma-separated serialization of object members. -/
def Json.stringifyMembers : List (String × Json) → String
  | [] => ""
  | [m] => "\x22" ++ m.1 ++ "\x22:" ++ Json.stringify m.2
  | m :: m2 :: ms =>
    "\x22" ++ m.1 ++ "\x22:" ++ Json.stringify m.2 ++ "," ++ Json.stringifyMembers (m2 :: ms)

end

/-! ### The `LocalStorageService` accessors (localstorage.ts) -/

/-- A JS promise, modelled by the value its executor passes to `resolve`,
if the executor ever calls `resolve` at all: `resolved = none` means the
promise never settles. -/
structure JsPromise (α : Type) : Type where
  resolved : Option α

/-- `loadOpenKeys`: builds `new Promise(() => ...)` whose executor takes no
parameters, so it never calls `resolve`; the parsed open-keys list is only
returned from the executor, and `Promise` discards an executor's return
value.  The resulting promise therefore never settles, whatever the store
holds. -/
def loadOpenKeys (_st : Store) : JsPromise (List String) :=
  { resolved := none }

/-- `saveOpenKeys(openKeys)`: stores `JSON.stringify(openKeys)` under the
menu-open-keys key. -/
def saveOpenKeys (openKeys : List String) (st : Store) : Store :=
  setItem st LOCALSTORAGE_MENU_OPEN_KEYS (Json.stringify (Json.arr (openKeys.map Json.str)))

/-- `saveCurrentFileId(fileId)`: stores `fileId || ''`; `none` models both
JS `null` and `undefined`. -/
def saveCurrentFileId (fileId : Option String) (st : Store) : Store :=
  setItem st LOCALSTORAGE_CURRENT_FILE_ID (jsOr fileId "")

/-- `loadCurrentFileId()`: the raw `getItem` result. -/
def loadCurrentFileId (st : Store) : Option String :=
  getItem st LOCALSTORAGE_CURRENT_FILE_ID

/-- `loadBoardCustomFont()`: the raw `getItem` result. -/
def loadBoardCustomFont (st : Store) : Option String :=
  getItem st LOCALSTORAGE_BOARD_CUSTOM_FONTS

/-- `saveBoardCustomFont(fontName)`: the write is guarded by
`fontName && ...`, so it happens only when `fontName` is truthy —
a `null`/`undefined` or empty-string argument leaves the store unchanged. -/
def saveBoardCustomFont (fontName : Option String) (st : Store) : Store :=
  match fontName with
  | none => st
  | some s => if s = "" then st else setItem st LOCALSTORAGE_BOARD_CUSTOM_FONTS s

/-- `addBoardCustomFont(fontFamilyName)`: reads the stored comma-joined
list; when a value is stored, splits it on commas and returns unchanged if
the name is already an element (`arr?.includes`); otherwise appends the
name (`arr.concat(name).join(',')`), or stores the bare name when nothing
was stored (`arr` undefined). -/
def addBoardCustomFont (fontFamilyName : String) (st : Store) : Store :=
  match getItem st LOCALSTORAGE_BOARD_CUSTOM_FONTS with
  | none => setItem st LOCALSTORAGE_BOARD_CUSTOM_FONTS fontFamilyName
  | some customFonts =>
    let arr := splitComma customFonts
    if fontFamilyName ∈ arr then st
    else setItem st LOCALSTORAGE_BOARD_CUSTOM_FONTS (joinComma (arr ++ [fontFamilyName]))

/-- `saveLangCode(langCode)`: unconditional overwrite. -/
def saveLangCode (langCode : String) (st : Store) : Store :=
  setItem st LOCALSTORAGE_LANG_CODE langCode

/-- `loadLangCode()`: the raw `getItem` result. -/
def loadLangCode (st : Store) : Option String :=
  getItem st LOCALSTORAGE_LANG_CODE

/-- `loadBoardCustomFontSwitch()`: the raw `getItem` result. -/
def loadBoardCustomFontSwitch (st : Store) : Option String :=
  getItem st LOCALSTORAGE_BOARD_CUSTOM_FONT_SWITCH

/-- `saveBoardCustomFontSwitch(value)`: stores `value + ''`, the string
form of the boolean. -/
def saveBoardCustomFontSwitch (value : Bool) (st : Store) : Store :=
  setItem st LOCALSTORAGE_BOARD_CUSTOM_FONT_SWITCH (if value then "true" else "false")

/-! ### The canvas document store (`canvasIndexeddbStorage`)

The adapter itself is not part of the sources in scope; only its caller
(the `Handraw` component) is.  We model it from the spec. -/

/-- Modelled from the spec: error taxonomy of the Document Store Adapter —
the operation may fail with Storage-Unavailable (backing store
inaccessible) or Invalid-Key (malformed identifier). -/
inductive StorageErr : Type where
  | storageUnavailable : StorageErr
  | invalidKey : StorageErr
deriving DecidableEq

/-- Modelled from the spec: the canvas store is a mapping from document
identifier to serialized content string, at most one record per
identifier. -/
def CanvasStore : Type := String → Option String

/-- Modelled from the spec: a canvas store holding no record. -/
def emptyCanvasStore : CanvasStore := fun _ => none

/-- Modelled from the spec: `getCanvas(id)` retrieves previously stored
content for the identifier, `none` (the empty sentinel) if none exists. -/
def getCanvas (st : CanvasStore) (id : String) : Option String := st id

/-- Modelled from the spec: `addOrUpdateCanvas(id, content)` upserts
content for the identifier, overwriting any prior value unconditionally. -/
def addOrUpdateCanvas (st : CanvasStore) (id content : String) : CanvasStore :=
  fun k => if k = id then some content else st k

/-- A sequence of puts applied in order to a canvas store. -/
def applyPuts (st : CanvasStore) (puts : List (String × String)) : CanvasStore :=
  puts.foldl (fun acc p => addOrUpdateCanvas acc p.1 p.2) st

/-! ### The `Handraw` editor binding -/

/-- `DEFAULT_DATA_SOURCE = '\x7b\x7d'`, the empty-document sentinel. -/
def DEFAULT_DATA_SOURCE : String := "\x7b\x7d"

/-- `getDataSource(id)` awaits `getCanvas(id)` and then calls
`setDataSource(data || DEFAULT_DATA_SOURCE)`.  The body contains no
try/catch, so when the awaited read rejects, `setDataSource` is never
reached and the rejection propagates out of the binding.  We pass the
outcome of the awaited read as an argument (`Except.error` models a
rejected promise, `Except.ok none` a read that resolved with no stored
value) and return the resulting `dataSource` React state, `none` meaning
the state was never set. -/
def getDataSource (outcome : Except StorageErr (Option String)) : Option String :=
  match outcome with
  | .ok data => some (jsOr data DEFAULT_DATA_SOURCE)
  | .error _ => none

/-- The component body returns `dataSource ? <Revedraw .../> : null`: the
editor is rendered only when the `dataSource` state holds a truthy
string. -/
def rendersEditor (dataSource : Option String) : Bool :=
  match dataSource with
  | none => false
  | some s => !(s = "")

/-- The debounce quiescence window: `useDebounceFn(onChangeFn, wait: 200)`. -/
def WAIT : Nat := 200

/-- State of the mounted `Handraw` component relevant to persistence.

* `mountId` — the `file.id` captured by `onChangeFn`'s closure:
  `onChangeFn` is built by `useCallback` with an empty dependency array,
  so it holds the id from the first render for the component's whole
  lifetime, and every debounced write targets that id.
* `activeId` — the current `file.id` prop; the `useEffect` keyed on
  `[file.id]` re-hydrates from it but touches nothing else.
* `pending` — the single trailing-edge debounce slot of `useDebounceFn`:
  the scheduled flush deadline and the drawing data passed to the latest
  `onChangeDebounceFn` call.  ahooks cancels this timer only when the
  component unmounts; no code clears it when `file.id` changes.
* `writes` — the log of store writes performed so far, each recorded as
  (time, document id, serialized payload). -/
structure BindingState : Type where
  mountId : String
  activeId : String
  pending : Option (Nat × Json)
  writes : List (Nat × String × String)

/-- The component as just mounted for document `id`: no pending debounce,
no writes performed. -/
def initState (id : String) : BindingState :=
  { mountId := id, activeId := id, pending := none, writes := [] }

/-- External events driving the binding: a user edit carrying the new
drawing model (the `onChange` of `Revedraw`, routed through
`onChangeDebounceFn`), or a change of the `file` prop to another document
identifier. -/
inductive Event : Type where
  | edit : Nat → Json → Event
  | switch : Nat → String → Event

/-- Let the event loop catch up to time `t`: if the debounce deadline has
passed, the timer has fired and `onChangeFn` ran — it stringifies the
recorded data and writes it to the store under the closure's `mountId`. -/
def fireDue (t : Nat) (s : BindingState) : BindingState :=
  match s.pending with
  | none => s
  | some (deadline, data) =>
    if deadline ≤ t then
      { s with
        pending := none
        writes := s.writes ++ [(deadline, s.mountId, Json.stringify data)] }
    else s

/-- One event.  An edit at time `t` re-arms the debounce slot for `t +
WAIT` with the latest data, superseding a still-pending flush.  A switch
of the `file` prop updates `activeId` (and re-runs hydration, modelled
separately by `getDataSource`) — it does not touch the debounce slot. -/
def stepEvent (s : BindingState) (e : Event) : BindingState :=
  match e with
  | .edit t data =>
    let s1 := fireDue t s
    { s1 with pending := some (t + WAIT, data) }
  | .switch t newId =>
    let s1 := fireDue t s
    { s1 with activeId := newId }

/-- Process a sequence of events in order. -/
def runEvents (s : BindingState) (es : List Event) : BindingState :=
  es.foldl stepEvent s

/-- Let time run to quiescence: a still-pending debounce flush fires at
its deadline. -/
def settle (s : BindingState) : BindingState :=
  match s.pending with
  | none => s
  | some (deadline, data) =>
    { s with
      pending := none
      writes := s.writes ++ [(deadline, s.mountId, Json.stringify data)] }

/-- Two consecutive edits are rapid when the second falls strictly inside
the quiescence window opened by the first. -/
abbrev rapid (a b : Nat × Json) : Prop := a.1 < b.1 ∧ b.1 < a.1 + WAIT

/-! ### Lemmas about the comma split/join model -/

theorem splitCommaChars_ne_nil (cs : List Char) : splitCommaChars cs ≠ [] := by
  induction cs with
  | nil => simp [splitCommaChars]
  | cons c cs ih =>
    by_cases h : c = ','
    · simp [splitCommaChars, h]
    · simp only [splitCommaChars, if_neg h]
      cases hs : splitCommaChars cs with
      | nil => simp
      | cons p ps => simp

theorem comma_not_mem_of_mem_splitCommaChars (cs : List Char) :
    ∀ p ∈ splitCommaChars cs, ',' ∉ p := by
  induction cs with
  | nil =>
    intro p hp
    simp [splitCommaChars] at hp
    simp [hp]
  | cons c cs ih =>
    intro p hp
    by_cases h : c = ','
    · simp only [splitCommaChars, if_pos h] at hp
      rcases List.mem_cons.mp hp with hp | hp
      · simp [hp]
      · exact ih p hp
    · simp only [splitCommaChars, if_neg h] at hp
      cases hs : splitCommaChars cs with
      | nil => exact absurd hs (splitCommaChars_ne_nil cs)
      | cons q qs =>
        rw [hs] at hp
        rcases List.mem_cons.mp hp with hp | hp
        · subst hp
          intro hmem
          rcases List.mem_cons.mp hmem with h1 | h1
          · exact h h1.symm
          · exact ih q (by rw [hs]; exact List.mem_cons_self q qs) h1
        · exact ih p (by rw [hs]; exact List.mem_cons_of_mem q hp)

theorem splitCommaChars_comma_free (p : List Char) (hp : ',' ∉ p) :
    splitCommaChars p = [p] := by
  induction p with
  | nil => rfl
  | cons c cs ih =>
    have hc : c ≠ ',' := fun h => hp (by simp [h])
    have hcs : ',' ∉ cs := fun h => hp (List.mem_cons_of_mem c h)
    simp only [splitCommaChars, if_neg hc, ih hcs]

theorem splitCommaChars_append (p cs : List Char) (hp : ',' ∉ p) :
    splitCommaChars (p ++ ',' :: cs) = p :: splitCommaChars cs := by
  induction p with
  | nil => simp [splitCommaChars]
  | cons c q ih =>
    have hc : c ≠ ',' := fun h => hp (by simp [h])
    have hq : ',' ∉ q := fun h => hp (List.mem_cons_of_mem c h)
    rw [List.cons_append]
    simp only [splitCommaChars, if_neg hc, ih hq]

theorem splitCommaChars_join (ps : List (List Char)) (hne : ps ≠ [])
    (hfree : ∀ p ∈ ps, ',' ∉ p) :
    splitCommaChars (joinCommaChars ps) = ps := by
  induction ps with
  | nil => exact absurd rfl hne
  | cons p ps ih =>
    cases ps with
    | nil => exact splitCommaChars_comma_free p (hfree p (by simp))
    | cons q qs =>
      rw [show joinCommaChars (p :: q :: qs) = p ++ ',' :: joinCommaChars (q :: qs) from rfl]
      rw [splitCommaChars_append p _ (hfree p (by simp))]
      rw [ih (by simp) (fun r hr => hfree r (List.mem_cons_of_mem p hr))]

theorem splitComma_joinComma (xs : List String) (hne : xs ≠ [])
    (hfree : ∀ x ∈ xs, ',' ∉ x.data) :
    splitComma (joinComma xs) = xs := by
  unfold splitComma joinComma
  rw [show (String.mk (joinCommaChars (xs.map String.data))).data
        = joinCommaChars (xs.map String.data) from rfl]
  rw [splitCommaChars_join (xs.map String.data) (by simpa using hne)
    (by
      intro p hp
      rcases List.mem_map.mp hp with ⟨x, hx, rfl⟩
      exact hfree x hx)]
  rw [List.map_map]
  rw [show ((fun cs => String.mk cs) ∘ String.data) = id from rfl, List.map_id]

theorem mem_splitComma_comma_free (v s : String) (hs : s ∈ splitComma v) :
    ',' ∉ s.data := by
  unfold splitComma at hs
  rcases List.mem_map.mp hs with ⟨p, hp, rfl⟩
  exact comma_not_mem_of_mem_splitCommaChars v.data p hp

theorem splitComma_single (s : String) (hs : ',' ∉ s.data) : splitComma s = [s] := by
  unfold splitComma
  rw [splitCommaChars_comma_free s.data hs]
  rfl

theorem splitComma_join_append (cf s : String) (hs : ',' ∉ s.data) :
    splitComma (joinComma (splitComma cf ++ [s])) = splitComma cf ++ [s] := by
  refine splitComma_joinComma _ (by simp) ?_
  intro x hx
  rcases List.mem_append.mp hx with hx | hx
  · exact mem_splitComma_comma_free cf x hx
  · rw [List.mem_singleton] at hx
    subst hx
    exact hs

/-! ### Lemmas about the store models -/

theorem getItem_setItem_same (st : Store) (k v : String) :
    getItem (setItem st k v) k = some v := by
  simp [getItem, setItem]

theorem getCanvas_applyPuts_other (puts : List (String × String)) :
    ∀ (st : CanvasStore) (d : String), (∀ p ∈ puts, p.1 ≠ d) →
      getCanvas (applyPuts st puts) d = getCanvas st d := by
  induction puts with
  | nil => intro st d _; rfl
  | cons p ps ih =>
    intro st d h
    rw [show applyPuts st (p :: ps) = applyPuts (addOrUpdateCanvas st p.1 p.2) ps from rfl]
    rw [ih _ d (fun q hq => h q (List.mem_cons_of_mem p hq))]
    show (if d = p.1 then some p.2 else st d) = st d
    exact if_neg (fun hd => h p (List.mem_cons_self p ps) hd.symm)

/-! ### Lemmas about `addBoardCustomFont` -/

theorem addBoardCustomFont_of_none (s : String) (st : Store)
    (h : getItem st LOCALSTORAGE_BOARD_CUSTOM_FONTS = none) :
    addBoardCustomFont s st = setItem st LOCALSTORAGE_BOARD_CUSTOM_FONTS s := by
  unfold addBoardCustomFont
  rw [h]

theorem addBoardCustomFont_of_mem (s cf : String) (st : Store)
    (h : getItem st LOCALSTORAGE_BOARD_CUSTOM_FONTS = some cf)
    (hm : s ∈ splitComma cf) :
    addBoardCustomFont s st = st := by
  unfold addBoardCustomFont
  rw [h]
  simp [hm]

theorem addBoardCustomFont_of_not_mem (s cf : String) (st : Store)
    (h : getItem st LOCALSTORAGE_BOARD_CUSTOM_FONTS = some cf)
    (hm : s ∉ splitComma cf) :
    addBoardCustomFont s st
      = setItem st LOCALSTORAGE_BOARD_CUSTOM_FONTS (joinComma (splitComma cf ++ [s])) := by
  unfold addBoardCustomFont
  rw [h]
  simp [hm]

/-! ### Lemmas about the debounce machine -/

theorem fireDue_of_not_due (t : Nat) (s : BindingState)
    (h : ∀ dl d, s.pending = some (dl, d) → t < dl) : fireDue t s = s := by
  unfold fireDue
  cases hp : s.pending with
  | none => rfl
  | some pr =>
    obtain ⟨dl, d⟩ := pr
    have hnle : ¬ dl ≤ t := Nat.not_le.mpr (h dl d hp)
    simp [hnle]

theorem stepEvent_edit_not_due (t : Nat) (d : Json) (s : BindingState)
    (h : ∀ dl dd, s.pending = some (dl, dd) → t < dl) :
    stepEvent s (Event.edit t d) = { s with pending := some (t + WAIT, d) } := by
  simp only [stepEvent, fireDue_of_not_due t s h]

theorem runEvents_rapid_edits (es : List (Nat × Json)) :
    ∀ (t : Nat) (d : Json) (s : BindingState),
      (∀ dl dd, s.pending = some (dl, dd) → t < dl) →
      List.Chain' rapid ((t, d) :: es) →
      runEvents s (((t, d) :: es).map (fun p => Event.edit p.1 p.2)) =
        { s with pending := some ((es.getLastD (t, d)).1 + WAIT, (es.getLastD (t, d)).2) } := by
  induction es with
  | nil =>
    intro t d s hdl _
    show stepEvent s (Event.edit t d) = _
    rw [stepEvent_edit_not_due t d s hdl]
    rfl
  | cons td2 es ih =>
    intro t d s hdl hchain
    obtain ⟨t2, d2⟩ := td2
    have hr : rapid (t, d) (t2, d2) := (List.chain'_cons.mp hchain).1
    show runEvents (stepEvent s (Event.edit t d)) (((t2, d2) :: es).map (fun p => Event.edit p.1 p.2)) = _
    rw [stepEvent_edit_not_due t d s hdl]
    rw [ih t2 d2 _ (fun dl dd h => by
      have h2 : some (t + WAIT, d) = some (dl, dd) := h
      injection h2 with h3
      injection h3 with h4 h5
      rw [← h4]
      exact hr.2) hchain.tail]
    rw [List.getLastD_cons]

/-! ### Claim theorems -/

/-- C1 — behavior of the code at the failing input. Mount on `d1`, edit at
t = 0 (scheduling a debounced write for t = 200), switch the `file` prop to
`d2` at t = 100. The switch leaves the debounce slot armed (ahooks cancels
it only on unmount, and the `useEffect` keyed on `[file.id]` only
re-hydrates), so at t = 200 — after the switch — the superseded content of
`d1` is flushed and written to the store under `d1` (the id captured by
`onChangeFn`'s stale closure). This contradicts the claim that the pending
write is discarded without being flushed. -/
theorem switch_flushes_superseded_write :
    (runEvents (initState "d1") [Event.edit 0 (Json.str "old"), Event.switch 100 "d2"]).activeId = "d2" ∧
    (runEvents (initState "d1") [Event.edit 0 (Json.str "old"), Event.switch 100 "d2"]).pending
      = some (200, Json.str "old") ∧
    (settle (runEvents (initState "d1") [Event.edit 0 (Json.str "old"), Event.switch 100 "d2"])).writes
      = [(200, "d1", Json.stringify (Json.str "old"))] :=
  ⟨rfl, rfl, rfl⟩

/-- C2 — confirmed. For edits at times t, t2, ..., tn forming a `rapid`
chain (each strictly later than the previous, and strictly inside the
previous edit's 200ms quiescence window), starting from a freshly mounted
component, exactly one store write occurs once the window elapses after
the last edit, and it carries the serialization of the last edit's
content. -/
theorem debounced_edits_single_write (id : String) (t : Nat) (d : Json)
    (es : List (Nat × Json)) (hchain : List.Chain' rapid ((t, d) :: es)) :
    (settle (runEvents (initState id) (((t, d) :: es).map (fun p => Event.edit p.1 p.2)))).writes
      = [((es.getLastD (t, d)).1 + WAIT, id, Json.stringify (es.getLastD (t, d)).2)] := by
  rw [runEvents_rapid_edits es t d (initState id)
    (fun dl dd h => absurd h (by simp [initState])) hchain]
  rfl

/-- Witness for C2: two edits 100ms apart on document `doc1`; the single
write happens at t = 300 and stores the serialization of the second
edit's content. -/
theorem debounced_edits_single_write_witness :
    List.Chain' rapid [((0 : Nat), Json.null), (100, Json.bool true)] ∧
    (settle (runEvents (initState "doc1")
        ([((0 : Nat), Json.null), (100, Json.bool true)].map (fun p => Event.edit p.1 p.2)))).writes
      = [(300, "doc1", "true")] :=
  ⟨List.Chain.cons (by decide) List.Chain.nil,
   (debounced_edits_single_write "doc1" 0 Json.null [(100, Json.bool true)]
     (List.Chain.cons (by decide) List.Chain.nil)).trans rfl⟩

/-- C3 — behavior of the code. The promise built by `loadOpenKeys` never
settles, whatever the store holds: its executor never calls `resolve`, so
in particular the promise never resolves with the stored open-keys list
nor with the empty default. -/
theorem loadOpenKeys_never_resolves (st : Store) :
    (loadOpenKeys st).resolved = none ∧
    ∀ keys : List String, (loadOpenKeys st).resolved ≠ some keys :=
  ⟨rfl, fun _ h => Option.noConfusion h⟩

/-- C4 counterexample. For the font name "a,b" (which contains a comma) and
prior stored list "a,b", the claim fails: the name is not recognized as
present (the split list is ["a", "b"]), so the call appends, and the second
call appends again — the stored value changes from "a,b,a,b" to
"a,b,a,b,a,b", and the split of the stored value never contains "a,b" as an
element. -/
theorem addBoardCustomFont_comma_name_breaks_claim :
    getItem (addBoardCustomFont "a,b" (setItem emptyStore LOCALSTORAGE_BOARD_CUSTOM_FONTS "a,b"))
        LOCALSTORAGE_BOARD_CUSTOM_FONTS = some "a,b,a,b" ∧
    getItem (addBoardCustomFont "a,b" (addBoardCustomFont "a,b"
        (setItem emptyStore LOCALSTORAGE_BOARD_CUSTOM_FONTS "a,b")))
        LOCALSTORAGE_BOARD_CUSTOM_FONTS = some "a,b,a,b,a,b" ∧
    ¬ "a,b" ∈ splitComma "a,b,a,b" :=
  ⟨by decide, by decide, by decide⟩

/-- C4 amended — for every font name `s` that contains no comma and every
prior stored state: after `addBoardCustomFont s` the stored comma-joined
list contains `s` as an element; calling it again with `s` leaves the
store unchanged (idempotent union); and if `s` was already an element of
the stored list, the call is a no-op. -/
theorem addBoardCustomFont_idempotent_union (s : String) (st : Store)
    (hs : ',' ∉ s.data) :
    (∃ v, getItem (addBoardCustomFont s st) LOCALSTORAGE_BOARD_CUSTOM_FONTS = some v ∧
      s ∈ splitComma v) ∧
    addBoardCustomFont s (addBoardCustomFont s st) = addBoardCustomFont s st ∧
    (∀ cf, getItem st LOCALSTORAGE_BOARD_CUSTOM_FONTS = some cf → s ∈ splitComma cf →
      addBoardCustomFont s st = st) := by
  have key : ∃ v, getItem (addBoardCustomFont s st) LOCALSTORAGE_BOARD_CUSTOM_FONTS = some v ∧
      s ∈ splitComma v := by
    cases hcf : getItem st LOCALSTORAGE_BOARD_CUSTOM_FONTS with
    | none =>
      refine ⟨s, ?_, ?_⟩
      · rw [addBoardCustomFont_of_none s st hcf]
        exact getItem_setItem_same st LOCALSTORAGE_BOARD_CUSTOM_FONTS s
      · rw [splitComma_single s hs]
        exact List.mem_singleton.mpr rfl
    | some cf =>
      by_cases hmem : s ∈ splitComma cf
      · refine ⟨cf, ?_, hmem⟩
        rw [addBoardCustomFont_of_mem s cf st hcf hmem]
        exact hcf
      · refine ⟨joinComma (splitComma cf ++ [s]), ?_, ?_⟩
        · rw [addBoardCustomFont_of_not_mem s cf st hcf hmem]
          exact getItem_setItem_same st LOCALSTORAGE_BOARD_CUSTOM_FONTS _
        · rw [splitComma_join_append cf s hs]
          exact List.mem_append_right _ (List.mem_singleton.mpr rfl)
  refine ⟨key, ?_, fun cf h hm => addBoardCustomFont_of_mem s cf st h hm⟩
  obtain ⟨v, hv, hmem⟩ := key
  exact addBoardCustomFont_of_mem s v (addBoardCustomFont s st) hv hmem

/-- Witness for C4: the amended theorem applied to the comma-free name
"Arial" and the empty store. -/
theorem addBoardCustomFont_idempotent_union_witness :
    ',' ∉ "Arial".data ∧
    ((∃ v, getItem (addBoardCustomFont "Arial" emptyStore) LOCALSTORAGE_BOARD_CUSTOM_FONTS = some v ∧
      "Arial" ∈ splitComma v) ∧
    addBoardCustomFont "Arial" (addBoardCustomFont "Arial" emptyStore)
      = addBoardCustomFont "Arial" emptyStore ∧
    (∀ cf, getItem emptyStore LOCALSTORAGE_BOARD_CUSTOM_FONTS = some cf →
      "Arial" ∈ splitComma cf → addBoardCustomFont "Arial" emptyStore = emptyStore)) :=
  ⟨by decide, addBoardCustomFont_idempotent_union "Arial" emptyStore (by decide)⟩

/-- C5 counterexample. From the initial stored state "Arial,Arial" (with
"Arial" occurring twice), both calls of `addBoardCustomFont "Arial"` are
no-ops, so the stored list still contains "Arial" twice — not exactly
once as the claim states for any initial stored state. -/
theorem addArial_twice_duplicate_preserved :
    getItem (addBoardCustomFont "Arial" (addBoardCustomFont "Arial"
        (setItem emptyStore LOCALSTORAGE_BOARD_CUSTOM_FONTS "Arial,Arial")))
        LOCALSTORAGE_BOARD_CUSTOM_FONTS = some "Arial,Arial" ∧
    (splitComma "Arial,Arial").count "Arial" = 2 :=
  ⟨by decide, by decide⟩

/-- C5 amended — from any initial stored state in which "Arial" occurs at
most once as an element of the stored comma-joined list (in particular
from any state never touched by a write of a duplicated list), calling
`addBoardCustomFont "Arial"` twice results in a stored list in which
"Arial" occurs exactly once. -/
theorem addArial_twice_exactly_once (st : Store)
    (h : ∀ cf, getItem st LOCALSTORAGE_BOARD_CUSTOM_FONTS = some cf →
      (splitComma cf).count "Arial" ≤ 1) :
    ∃ v, getItem (addBoardCustomFont "Arial" (addBoardCustomFont "Arial" st))
        LOCALSTORAGE_BOARD_CUSTOM_FONTS = some v ∧
      (splitComma v).count "Arial" = 1 := by
  have harial : ',' ∉ "Arial".data := by decide
  cases hcf : getItem st LOCALSTORAGE_BOARD_CUSTOM_FONTS with
  | none =>
    have h1 : addBoardCustomFont "Arial" st = setItem st LOCALSTORAGE_BOARD_CUSTOM_FONTS "Arial" :=
      addBoardCustomFont_of_none "Arial" st hcf
    have h2 : getItem (addBoardCustomFont "Arial" st) LOCALSTORAGE_BOARD_CUSTOM_FONTS
        = some "Arial" := by
      rw [h1]; exact getItem_setItem_same st LOCALSTORAGE_BOARD_CUSTOM_FONTS "Arial"
    have h3 : addBoardCustomFont "Arial" (addBoardCustomFont "Arial" st)
        = addBoardCustomFont "Arial" st :=
      addBoardCustomFont_of_mem "Arial" "Arial" _ h2 (by decide)
    refine ⟨"Arial", by rw [h3]; exact h2, by decide⟩
  | some cf =>
    by_cases hmem : "Arial" ∈ splitComma cf
    · have h1 : addBoardCustomFont "Arial" st = st :=
        addBoardCustomFont_of_mem "Arial" cf st hcf hmem
      refine ⟨cf, by rw [h1, h1]; exact hcf, ?_⟩
      have hle := h cf hcf
      have hpos := List.count_pos_iff.mpr hmem
      omega
    · have h1 : addBoardCustomFont "Arial" st
          = setItem st LOCALSTORAGE_BOARD_CUSTOM_FONTS (joinComma (splitComma cf ++ ["Arial"])) :=
        addBoardCustomFont_of_not_mem "Arial" cf st hcf hmem
      have h2 : getItem (addBoardCustomFont "Arial" st) LOCALSTORAGE_BOARD_CUSTOM_FONTS
          = some (joinComma (splitComma cf ++ ["Arial"])) := by
        rw [h1]; exact getItem_setItem_same st LOCALSTORAGE_BOARD_CUSTOM_FONTS _
      have hsplit : splitComma (joinComma (splitComma cf ++ ["Arial"]))
          = splitComma cf ++ ["Arial"] := splitComma_join_append cf "Arial" harial
      have h3 : addBoardCustomFont "Arial" (addBoardCustomFont "Arial" st)
          = addBoardCustomFont "Arial" st :=
        addBoardCustomFont_of_mem "Arial" _ _ h2
          (by rw [hsplit]; exact List.mem_append_right _ (List.mem_singleton.mpr rfl))
      refine ⟨joinComma (splitComma cf ++ ["Arial"]), by rw [h3]; exact h2, ?_⟩
      rw [hsplit, List.count_append, List.count_eq_zero.mpr hmem]
      decide

/-- Witness for C5: the amended theorem applied to the empty store, whose
hypothesis holds vacuously. -/
theorem addArial_twice_exactly_once_witness :
    (∀ cf, getItem emptyStore LOCALSTORAGE_BOARD_CUSTOM_FONTS = some cf →
      (splitComma cf).count "Arial" ≤ 1) ∧
    ∃ v, getItem (addBoardCustomFont "Arial" (addBoardCustomFont "Arial" emptyStore))
        LOCALSTORAGE_BOARD_CUSTOM_FONTS = some v ∧
      (splitComma v).count "Arial" = 1 :=
  ⟨fun _ hcf => Option.noConfusion hcf,
   addArial_twice_exactly_once emptyStore (fun _ hcf => Option.noConfusion hcf)⟩

/-- C6 — behavior of the code at the failing input. `getDataSource` contains
no try/catch: when the awaited store read rejects (with either error of the
adapter's taxonomy), `setDataSource` is never called, so the `dataSource`
state stays unset — the editor does not fall back to the default
empty-document sentinel, renders nothing, and the rejection propagates out
of the binding instead of being caught. -/
theorem hydration_failure_not_caught :
    getDataSource (Except.error StorageErr.storageUnavailable) = none ∧
    getDataSource (Except.error StorageErr.invalidKey) = none ∧
    getDataSource (Except.error StorageErr.storageUnavailable) ≠ some DEFAULT_DATA_SOURCE ∧
    rendersEditor (getDataSource (Except.error StorageErr.storageUnavailable)) = false :=
  ⟨rfl, rfl, fun h => Option.noConfusion h, rfl⟩

/-- C7 counterexample. With "x" stored under the custom-fonts key,
`saveBoardCustomFont("")` does not overwrite: the guard `fontName && ...`
skips the write for the falsy empty string, the stored value remains "x"
(not ""), and a `null`/`undefined` argument likewise leaves the store
untouched. -/
theorem saveBoardCustomFont_not_unconditional :
    getItem (saveBoardCustomFont (some "")
        (setItem emptyStore LOCALSTORAGE_BOARD_CUSTOM_FONTS "x"))
        LOCALSTORAGE_BOARD_CUSTOM_FONTS = some "x" ∧
    getItem (saveBoardCustomFont (some "")
        (setItem emptyStore LOCALSTORAGE_BOARD_CUSTOM_FONTS "x"))
        LOCALSTORAGE_BOARD_CUSTOM_FONTS ≠ some "" ∧
    saveBoardCustomFont none (setItem emptyStore LOCALSTORAGE_BOARD_CUSTOM_FONTS "x")
      = setItem emptyStore LOCALSTORAGE_BOARD_CUSTOM_FONTS "x" :=
  ⟨by decide, by decide, rfl⟩

/-- C7 amended — every settings write except `saveBoardCustomFont`
overwrites the stored value unconditionally (`saveOpenKeys`,
`saveCurrentFileId`, `saveLangCode`, `saveBoardCustomFontSwitch`);
`saveBoardCustomFont(v)` stores `v` only when `v` is a truthy string
(neither null/undefined nor empty) and is a no-op on `null`/`undefined`
and on the empty string. -/
theorem settings_write_behavior (st : Store) (s : String) (hs : s ≠ "")
    (openKeys : List String) (langCode : String) (fileId : Option String) (b : Bool) :
    getItem (saveBoardCustomFont (some s) st) LOCALSTORAGE_BOARD_CUSTOM_FONTS = some s ∧
    saveBoardCustomFont none st = st ∧
    saveBoardCustomFont (some "") st = st ∧
    getItem (saveOpenKeys openKeys st) LOCALSTORAGE_MENU_OPEN_KEYS
      = some (Json.stringify (Json.arr (openKeys.map Json.str))) ∧
    getItem (saveCurrentFileId fileId st) LOCALSTORAGE_CURRENT_FILE_ID = some (jsOr fileId "") ∧
    getItem (saveLangCode langCode st) LOCALSTORAGE_LANG_CODE = some langCode ∧
    getItem (saveBoardCustomFontSwitch b st) LOCALSTORAGE_BOARD_CUSTOM_FONT_SWITCH
      = some (if b then "true" else "false") := by
  refine ⟨?_, rfl, rfl, ?_, ?_, ?_, ?_⟩
  · show getItem (if s = "" then st else setItem st LOCALSTORAGE_BOARD_CUSTOM_FONTS s)
        LOCALSTORAGE_BOARD_CUSTOM_FONTS = some s
    rw [if_neg hs]
    exact getItem_setItem_same st LOCALSTORAGE_BOARD_CUSTOM_FONTS s
  · exact getItem_setItem_same st LOCALSTORAGE_MENU_OPEN_KEYS _
  · exact getItem_setItem_same st LOCALSTORAGE_CURRENT_FILE_ID _
  · exact getItem_setItem_same st LOCALSTORAGE_LANG_CODE _
  · exact getItem_setItem_same st LOCALSTORAGE_BOARD_CUSTOM_FONT_SWITCH _

/-- Witness for C7: the amended theorem applied to the empty store with
font name "Arial", open keys ["k1"], language code "en", file id absent,
and switch value true. -/
theorem settings_write_behavior_witness :
    ("Arial" ≠ "") ∧
    (getItem (saveBoardCustomFont (some "Arial") emptyStore) LOCALSTORAGE_BOARD_CUSTOM_FONTS
      = some "Arial" ∧
    saveBoardCustomFont none emptyStore = emptyStore ∧
    saveBoardCustomFont (some "") emptyStore = emptyStore ∧
    getItem (saveOpenKeys ["k1"] emptyStore) LOCALSTORAGE_MENU_OPEN_KEYS
      = some (Json.stringify (Json.arr (["k1"].map Json.str))) ∧
    getItem (saveCurrentFileId none emptyStore) LOCALSTORAGE_CURRENT_FILE_ID = some (jsOr none "") ∧
    getItem (saveLangCode "en" emptyStore) LOCALSTORAGE_LANG_CODE = some "en" ∧
    getItem (saveBoardCustomFontSwitch true emptyStore) LOCALSTORAGE_BOARD_CUSTOM_FONT_SWITCH
      = some (if true then "true" else "false")) :=
  ⟨by decide, settings_write_behavior emptyStore "Arial" (by decide) ["k1"] "en" none true⟩

/-- C8 — confirmed against the spec-modelled canvas store: for every
document identifier `d` and every sequence of puts none of which targets
`d`, `getCanvas` returns `none` (the empty sentinel), and hydration of
such a read sets the editor state to the default empty-document sentinel
and renders the editor with it. -/
theorem get_default_after_no_put (d : String) (puts : List (String × String))
    (h : ∀ p ∈ puts, p.1 ≠ d) :
    getCanvas (applyPuts emptyCanvasStore puts) d = none ∧
    getDataSource (Except.ok (getCanvas (applyPuts emptyCanvasStore puts) d))
      = some DEFAULT_DATA_SOURCE ∧
    rendersEditor (getDataSource (Except.ok (getCanvas (applyPuts emptyCanvasStore puts) d)))
      = true := by
  have h1 : getCanvas (applyPuts emptyCanvasStore puts) d = none := by
    rw [getCanvas_applyPuts_other puts emptyCanvasStore d h]
    rfl
  refine ⟨h1, ?_, ?_⟩ <;> rw [h1] <;> rfl

/-- Witness for C8: a store populated only for identifier "other" holds
nothing for "doc", and hydration for "doc" yields the default sentinel. -/
theorem get_default_after_no_put_witness :
    (∀ p ∈ [("other", "x")], (p : String × String).1 ≠ "doc") ∧
    (getCanvas (applyPuts emptyCanvasStore [("other", "x")]) "doc" = none ∧
    getDataSource (Except.ok (getCanvas (applyPuts emptyCanvasStore [("other", "x")]) "doc"))
      = some DEFAULT_DATA_SOURCE ∧
    rendersEditor (getDataSource
        (Except.ok (getCanvas (applyPuts emptyCanvasStore [("other", "x")]) "doc"))) = true) :=
  ⟨by decide, get_default_after_no_put "doc" [("other", "x")] (by decide)⟩

/-- C9 — confirmed. `setDataSource(data || DEFAULT_DATA_SOURCE)` maps every
falsy fetched value — the empty string just as absence — to the default
empty-document sentinel; a persisted empty-string content is never
rendered as-is. -/
theorem falsy_read_hydrates_default :
    getDataSource (Except.ok (some "")) = some DEFAULT_DATA_SOURCE ∧
    getDataSource (Except.ok none) = some DEFAULT_DATA_SOURCE ∧
    getDataSource (Except.ok (some "")) ≠ some "" :=
  ⟨rfl, rfl, by decide⟩

/-- C10 — confirmed. `saveCurrentFileId(null)` (and `undefined`, both
modelled by `none`) stores `fileId || ''`, the empty string, so a
subsequent `loadCurrentFileId` returns the empty string, not null. -/
theorem saveCurrentFileId_nullish_stores_empty (st : Store) :
    loadCurrentFileId (saveCurrentFileId none st) = some "" ∧
    loadCurrentFileId (saveCurrentFileId none st) ≠ none :=
  ⟨getItem_setItem_same st LOCALSTORAGE_CURRENT_FILE_ID "",
   fun h => Option.noConfusion ((getItem_setItem_same st LOCALSTORAGE_CURRENT_FILE_ID "").symm.trans h)⟩
